import Mathlib

/-!
Verification of the Canvas MCP server's HTTP request/response core:
the parameter-formatting algorithm, the auto-pagination driver, the
post-exchange error construction of the base request engine, and the
domain client's contextual error rewrapping.  Each definition is a
shallow embedding of the corresponding Python function in
`src/canvas_mcp_server/utils/canvas_api.py`,
`src/canvas_mcp_server/utils/http_client.py` and
`src/canvas_mcp_server/config.py`.
-/

/-- A Python value as it occurs in a Canvas query-parameter dictionary:
`None`, a primitive (string / int / bool), an enum-like object (an object
with a `.value` attribute whose underlying primitive is a string), or a
list of such values. -/
inductive PVal where
  | vnone
  | vstr (s : String)
  | vint (n : Int)
  | vbool (b : Bool)
  | venum (s : String)
  | vlist (xs : List PVal)

/-- `hasattr(value, 'value')`: true exactly for enum-like values. -/
def PVal.isEnum : PVal → Bool
  | .venum _ => true
  | _ => false

/-- `isinstance(value, list)`. -/
def PVal.isList : PVal → Bool
  | .vlist _ => true
  | _ => false

/-- `item.value if hasattr(item, 'value') else item`
(canvas_api.py line 50): reduce an enum-like value to its underlying
primitive, pass anything else through unchanged. -/
def PVal.reduceItem : PVal → PVal
  | .venum s => .vstr s
  | v => v

/-- A value already free of enum-like wrappers, including inside a list
value (the values a caller supplies when everything is already
primitive). -/
def PVal.enumFree : PVal → Bool
  | .venum _ => false
  | .vlist xs => xs.all (fun v => !v.isEnum)
  | _ => true

/-- A Python dict with string keys, as an insertion-ordered association
list (a Python dict never holds a key twice). -/
abbrev Params := List (String × PVal)

/-- Python dict assignment `d[k] = v` on an association list whose keys
are unique: replace the value at the first entry holding `k`, or append
a fresh entry at the end. -/
def dictSet : Params → String → PVal → Params
  | [], k, v => [(k, v)]
  | (k', v') :: rest, k, v =>
    if k' = k then (k, v) :: rest
    else (k', v') :: dictSet rest k v

/-- Python dict lookup `d.get(k)`. -/
def dictLookup : Params → String → Option PVal
  | [], _ => none
  | (k', v') :: rest, k => if k' = k then some v' else dictLookup rest k

/-- The fixed array-parameter key set of
`CanvasAPIClient._format_canvas_params` (canvas_api.py line 47). -/
def arrayParamKeys : List String := ["include", "state", "types", "workflow_state"]

/-- One iteration of the `for key, value in params.items()` loop of
`_format_canvas_params` (canvas_api.py lines 42-58): skip `None`,
rename a non-empty list under an array-parameter key to `key ++ "[]"`
with elements reduced to primitives, drop an empty such list, reduce a
bare enum-like value, and pass everything else through. -/
def formatEntry (acc : Params) (kv : String × PVal) : Params :=
  match kv.2 with
  | .vnone => acc
  | .vlist xs =>
    if kv.1 ∈ arrayParamKeys then
      if xs.isEmpty then acc
      else dictSet acc (kv.1 ++ "[]") (.vlist (xs.map PVal.reduceItem))
    else dictSet acc kv.1 (.vlist xs)
  | .venum s => dictSet acc kv.1 (.vstr s)
  | v => dictSet acc kv.1 v

/-- `CanvasAPIClient._format_canvas_params` (canvas_api.py lines 27-60):
fold the per-entry step over the input dict, building the formatted
dict. -/
def _format_canvas_params (params : Params) : Params :=
  params.foldl formatEntry []

/-- The response body shapes the pagination driver distinguishes
(canvas_api.py lines 156-165): a list of records, a single mapping
record, or anything else (e.g. raw text). -/
inductive Body (α : Type) where
  | blist (l : List α)
  | bdict (d : α)
  | other

/-- The `for page in range(1, max_pages + 1)` loop of
`get_paginated_data` (canvas_api.py lines 151-168), instrumented with
the list of page numbers actually fetched, in order.  `fetch` is the
single-page fetch (`get_canvas_data` applied to the endpoint and the
page parameters); `remaining` counts the loop iterations left. -/
def paginateLoop {α : Type} (fetch : Nat → Body α) (per_page : Nat) :
    Nat → Nat → List α → List α × List Nat
  | _, 0, acc => (acc, [])
  | page, remaining + 1, acc =>
    match fetch page with
    | .blist page_data =>
      if page_data.length < per_page then (acc ++ page_data, [page])
      else
        let rest := paginateLoop fetch per_page (page + 1) remaining (acc ++ page_data)
        (rest.1, page :: rest.2)
    | .bdict d => ([d], [page])
    | .other => ([], [page])

/-- `CanvasAPIClient.get_paginated_data` (canvas_api.py lines 125-168):
the combined records returned by the pagination loop started at page 1
with an empty accumulator. -/
def get_paginated_data {α : Type} (fetch : Nat → Body α) (max_pages per_page : Nat) :
    List α :=
  (paginateLoop fetch per_page 1 max_pages []).1

/-- The page numbers `get_paginated_data` fetches, in order (the
instrumented call trace of the same run). -/
def get_paginated_calls {α : Type} (fetch : Nat → Body α) (max_pages per_page : Nat) :
    List Nat :=
  (paginateLoop fetch per_page 1 max_pages []).2

/-- A parsed JSON body as Python's `json` module yields it: `None`,
`bool`, `int` (JSON numbers are modelled by their integer values),
`str`, `list` or `dict`.  The raw-text fallback of the body parser is
also a `str`, so `jstr` covers both a parsed JSON string and an unparsed
text body — Python cannot tell the two apart either. -/
inductive JVal where
  | jnull
  | jbool (b : Bool)
  | jnum (n : Int)
  | jstr (s : String)
  | jarr (xs : List JVal)
  | jobj (fields : List (String × JVal))

/-- Python `repr` of a string: single-quoted, with backslash and quote
escaped (the escaping of non-printable characters is not modelled; no
claim depends on it). -/
def pyStrRepr (s : String) : String :=
  "'" ++ String.mk (s.data.flatMap fun c =>
    if c = '\\' then ['\\', '\\'] else if c = '\'' then ['\\', '\''] else [c]) ++ "'"

/-- Python `repr` of a parsed JSON value: scalars print their Python
form, strings get quotes, containers recurse over their elements. -/
def JVal.pyRepr : JVal → String
  | .jnull => "None"
  | .jbool b => if b then "True" else "False"
  | .jnum n => toString n
  | .jstr s => pyStrRepr s
  | .jarr xs => "[" ++ ", ".intercalate (xs.attach.map fun v => v.1.pyRepr) ++ "]"
  | .jobj fields => "\x7b" ++ ", ".intercalate (fields.attach.map fun kv =>
      pyStrRepr kv.1.1 ++ ": " ++ kv.1.2.pyRepr) ++ "\x7d"
decreasing_by
  · have h := List.sizeOf_lt_of_mem v.2
    simp only [JVal.jarr.sizeOf_spec]
    omega
  · obtain ⟨⟨a, b⟩, hm⟩ := kv
    have h := List.sizeOf_lt_of_mem hm
    simp only [Prod.mk.sizeOf_spec] at h
    simp only [JVal.jobj.sizeOf_spec]
    omega

/-- Python `str()` of a parsed JSON value, as an f-string interpolates
it: a string prints itself, everything else prints its `repr`. -/
def JVal.pyStr : JVal → String
  | .jstr s => s
  | v => v.pyRepr

/-- Python dict lookup on a parsed JSON object (`'message' in body`,
`body['message']`); parsed dicts never hold a key twice. -/
def jobjLookup : List (String × JVal) → String → Option JVal
  | [], _ => none
  | (k', v') :: rest, k => if k' = k then some v' else jobjLookup rest k

/-- `HTTPError` (http_client.py lines 41-59): message plus optional
status code, response body and URL. -/
structure HTTPErrorT where
  message : String
  status_code : Option Nat := none
  response_data : Option JVal := none
  url : Option String := none

/-- `HTTPResponse` (http_client.py lines 11-23). -/
structure HTTPResponseT where
  status_code : Nat
  data : JVal
  headers : List (String × String)
  url : String

/-- `HTTPResponse.is_success` (http_client.py line 28). -/
def HTTPResponseT.is_success (r : HTTPResponseT) : Bool :=
  decide (200 ≤ r.status_code ∧ r.status_code < 300)

/-- One completed HTTP exchange as the transport hands it back:
status code, body already parsed with the raw-text fallback, headers,
and the final URL `str(response.url)`. -/
structure RawExchange where
  status_code : Nat
  response_data : JVal
  headers : List (String × String)
  final_url : String

/-- The post-exchange tail of `BaseHTTPClient._make_request`
(http_client.py lines 147-170): wrap the exchange in an `HTTPResponse`;
on a non-2xx status build the error message — `"HTTP {status} error"`,
plus `": {body['message']}"` for a mapping containing "message", else
plus `": "` and the first 200 characters of the body and `"..."` for a
text body — and raise an `HTTPError` carrying the status, the full
parsed body and the constructed request URL. -/
def _make_request (url : String) (ex : RawExchange) : Except HTTPErrorT HTTPResponseT :=
  let http_response : HTTPResponseT :=
    ⟨ex.status_code, ex.response_data, ex.headers, ex.final_url⟩
  if http_response.is_success then .ok http_response
  else
    let base := "HTTP " ++ toString ex.status_code ++ " error"
    let error_msg :=
      match ex.response_data with
      | .jobj fields =>
        match jobjLookup fields "message" with
        | some v => base ++ ": " ++ v.pyStr
        | none => base
      | .jstr s => base ++ ": " ++ s.take 200 ++ "..."
      | _ => base
    .error ⟨error_msg, some ex.status_code, some ex.response_data, some url⟩

/-- `Config.validate`'s error message (config.py lines 33-35). -/
def configValidateMsg : String :=
  "CANVAS_API_TOKEN is required. Please set it in your environment or .env file."

/-- The failure signals `get_canvas_data` can raise: the `ValueError`
of `Config.validate` (config.py lines 24-35), or an `HTTPError`. -/
inductive CanvasFailure where
  | configError (message : String)
  | httpError (e : HTTPErrorT)

/-- The 401 rewrap message (canvas_api.py line 102). -/
def canvasAuthFailedMsg : String :=
  "Canvas API authentication failed. Please check your CANVAS_API_TOKEN."

/-- The 403 rewrap message (canvas_api.py line 109). -/
def canvasForbiddenMsg : String :=
  "Canvas API access forbidden. Check your permissions for this resource."

/-- The 404 rewrap message (canvas_api.py line 116). -/
def canvasNotFoundMsg (endpoint : String) : String :=
  "Canvas API endpoint not found: " ++ endpoint

/-- `CanvasAPIClient.get_canvas_data` (canvas_api.py lines 62-123):
`config.validate()` first (`ValueError` when the configured token is
the empty string — Python's falsiness test on a `str`), then the
underlying GET, whose outcome is passed in as `getResult`; an
`HTTPError` with status 401/403/404 is rewrapped with a contextual
message and the same status, body and URL; any other error re-raises
unchanged. -/
def get_canvas_data (token endpoint : String)
    (getResult : Except HTTPErrorT HTTPResponseT) : Except CanvasFailure HTTPResponseT :=
  if token = "" then .error (.configError configValidateMsg)
  else
    match getResult with
    | .ok r => .ok r
    | .error e =>
      if e.status_code = some 401 then
        .error (.httpError ⟨canvasAuthFailedMsg, e.status_code, e.response_data, e.url⟩)
      else if e.status_code = some 403 then
        .error (.httpError ⟨canvasForbiddenMsg, e.status_code, e.response_data, e.url⟩)
      else if e.status_code = some 404 then
        .error (.httpError ⟨canvasNotFoundMsg endpoint, e.status_code, e.response_data, e.url⟩)
      else .error (.httpError e)

/-- The methods `BaseHTTPClient` defines (http_client.py lines 71-236). -/
def BaseHTTPClientMethods : List String :=
  ["__init__", "_build_url", "_merge_headers", "_make_request",
   "get", "post", "put", "delete", "patch"]

/-- The attribute namespace of `CanvasAPIClient` (canvas_api.py lines
11-168): its own methods plus everything inherited from
`BaseHTTPClient`.  Python attribute lookup on the client resolves a
method name against exactly this set; a name outside it raises
`AttributeError`. -/
def CanvasAPIClientMethods : List String :=
  ["__init__", "_format_canvas_params", "get_canvas_data", "get_paginated_data"]
    ++ BaseHTTPClientMethods

/-- An upstream whose page 1 is a full list of one record (per_page 1)
and whose page 2 body is neither a sequence nor a mapping. -/
def exFetchC1 : Nat → Body Nat := fun k => if k = 1 then Body.blist [5] else Body.other

/-- An upstream returning pages of sizes 100, 100, 37 (page k is filled
with the record k). -/
def wl1 : Nat → List Nat := fun k => if k ≤ 2 then List.replicate 100 k else List.replicate 37 k

/-- An upstream always returning exactly 100 records. -/
def wl2 : Nat → List Nat := fun k => List.replicate 100 k

/-- An upstream whose first page is a single mapping record. -/
def exFetchC3 : Nat → Body Nat := fun _ => Body.bdict 42

/-- A 401 error as the base engine raises it. -/
def e401 : HTTPErrorT := ⟨"HTTP 401 error", some 401, some (JVal.jstr "x"), some "u"⟩

/-- A 403 error as the base engine raises it. -/
def e403 : HTTPErrorT := ⟨"HTTP 403 error", some 403, none, some "u"⟩

/-- A 404 error as the base engine raises it. -/
def e404 : HTTPErrorT := ⟨"HTTP 404 error", some 404, none, some "u"⟩

/-- A transport failure (timeout): no status code. -/
def eTimeout : HTTPErrorT := ⟨"Request timeout after 30.0s", none, none, some "u"⟩

/-- Shape invariant of every entry `_format_canvas_params` writes: the
value is never `None`, never enum-like, and an array-parameter key
never holds a list (lists under array-parameter keys were renamed to
the bracket-suffixed key, which is not itself an array-parameter
key). -/
def GoodEntry (p : String × PVal) : Prop :=
  p.2 ≠ PVal.vnone ∧ p.2.isEnum = false ∧ (p.1 ∈ arrayParamKeys → p.2.isList = false)

example : get_paginated_data (fun k => Body.blist [k, k]) 3 2 = [1, 1, 2, 2, 3, 3] := by decide

example : get_paginated_data (fun k => if k = 2 then Body.blist [9] else Body.blist [k, k]) 5 2
    = [1, 1, 9] := by decide

example : get_paginated_calls (fun k => if k = 2 then Body.blist [9] else Body.blist [k, k]) 5 2
    = [1, 2] := by decide

example : get_paginated_data (fun k => if k = 2 then Body.other else Body.blist [k, k]) 5 2
    = [] := by decide

example : get_paginated_data (fun k => if k = 2 then Body.bdict 7 else Body.blist [k, k]) 5 2
    = [7] := by decide

example : _format_canvas_params [("include", .vlist [.venum "term", .vstr "x"]),
    ("state", .venum "available"), ("foo", .vnone), ("types", .vlist [])]
    = [("include[]", .vlist [.vstr "term", .vstr "x"]), ("state", .vstr "available")] := rfl

lemma paginateLoop_full {α : Type} (l : Nat → List α) (p : Nat) :
    ∀ (r page : Nat) (acc : List α),
      (∀ k, page ≤ k → k < page + r → p ≤ (l k).length) →
      paginateLoop (fun k => Body.blist (l k)) p page r acc
        = (acc ++ (List.range' page r).flatMap l, List.range' page r) := by
  intro r
  induction r with
  | zero => intro page acc _; simp [paginateLoop]
  | succ n ih =>
    intro page acc h
    have hp : p ≤ (l page).length := h page le_rfl (by omega)
    have hrec := ih (page + 1) (acc ++ l page)
      (fun k hk1 hk2 => h k (by omega) (by omega))
    simp only [paginateLoop, if_neg (Nat.not_lt.mpr hp), hrec,
      List.range'_succ, List.flatMap_cons, List.append_assoc]

lemma paginateLoop_short {α : Type} (l : Nat → List α) (p : Nat) :
    ∀ (r page n : Nat) (acc : List α), page ≤ n → n < page + r →
      (∀ k, page ≤ k → k < n → p ≤ (l k).length) →
      (l n).length < p →
      paginateLoop (fun k => Body.blist (l k)) p page r acc
        = (acc ++ (List.range' page (n + 1 - page)).flatMap l,
           List.range' page (n + 1 - page)) := by
  intro r
  induction r with
  | zero => intro page n acc h1 h2 _ _; omega
  | succ m ih =>
    intro page n acc h1 h2 hfull hshort
    by_cases hpn : page = n
    · subst hpn
      have hone : page + 1 - page = 1 := by omega
      simp [paginateLoop, if_pos hshort, hone]
    · have hlt : page < n := by omega
      have hp : p ≤ (l page).length := hfull page le_rfl hlt
      have hrec := ih (page + 1) n (acc ++ l page) (by omega) (by omega)
        (fun k hk1 hk2 => hfull k (by omega) hk2) hshort
      have harith : n + 1 - page = (n - page) + 1 := by omega
      have harith2 : n + 1 - (page + 1) = n - page := by omega
      rw [harith2] at hrec
      simp only [paginateLoop, if_neg (Nat.not_lt.mpr hp), hrec, harith,
        List.range'_succ, List.flatMap_cons, List.append_assoc]

lemma paginateLoop_bdict {α : Type} (fetch : Nat → Body α) (p : Nat) (d : α) :
    ∀ (r page n : Nat) (acc : List α), page ≤ n → n < page + r →
      (∀ k, page ≤ k → k < n → ∃ lk, fetch k = Body.blist lk ∧ p ≤ lk.length) →
      fetch n = Body.bdict d →
      paginateLoop fetch p page r acc = ([d], List.range' page (n + 1 - page)) := by
  intro r
  induction r with
  | zero => intro page n acc h1 h2 _ _; omega
  | succ m ih =>
    intro page n acc h1 h2 hprev hn
    by_cases hpn : page = n
    · subst hpn
      have hone : page + 1 - page = 1 := by omega
      simp [paginateLoop, hn, hone]
    · have hlt : page < n := by omega
      obtain ⟨lk, hfk, hlen⟩ := hprev page le_rfl hlt
      have hrec := ih (page + 1) n (acc ++ lk) (by omega) (by omega)
        (fun k hk1 hk2 => hprev k (by omega) hk2) hn
      have harith : n + 1 - page = (n - page) + 1 := by omega
      have harith2 : n + 1 - (page + 1) = n - page := by omega
      rw [harith2] at hrec
      simp only [paginateLoop, hfk, if_neg (Nat.not_lt.mpr hlen), hrec, harith,
        List.range'_succ]

lemma paginateLoop_other {α : Type} (fetch : Nat → Body α) (p : Nat) :
    ∀ (r page n : Nat) (acc : List α), page ≤ n → n < page + r →
      (∀ k, page ≤ k → k < n → ∃ lk, fetch k = Body.blist lk ∧ p ≤ lk.length) →
      fetch n = Body.other →
      paginateLoop fetch p page r acc = ([], List.range' page (n + 1 - page)) := by
  intro r
  induction r with
  | zero => intro page n acc h1 h2 _ _; omega
  | succ m ih =>
    intro page n acc h1 h2 hprev hn
    by_cases hpn : page = n
    · subst hpn
      have hone : page + 1 - page = 1 := by omega
      simp [paginateLoop, hn, hone]
    · have hlt : page < n := by omega
      obtain ⟨lk, hfk, hlen⟩ := hprev page le_rfl hlt
      have hrec := ih (page + 1) n (acc ++ lk) (by omega) (by omega)
        (fun k hk1 hk2 => hprev k (by omega) hk2) hn
      have harith : n + 1 - page = (n - page) + 1 := by omega
      have harith2 : n + 1 - (page + 1) = n - page := by omega
      rw [harith2] at hrec
      simp only [paginateLoop, hfk, if_neg (Nat.not_lt.mpr hlen), hrec, harith,
        List.range'_succ]

lemma flatMap_length_const {α : Type} (l : Nat → List α) (p : Nat) :
    ∀ (r a : Nat), (∀ k, a ≤ k → k < a + r → (l k).length = p) →
      ((List.range' a r).flatMap l).length = r * p := by
  intro r
  induction r with
  | zero => intro a _; simp
  | succ n ih =>
    intro a h
    have hrec := ih (a + 1) (fun k hk1 hk2 => h k (by omega) (by omega))
    have ha : (l a).length = p := h a le_rfl (by omega)
    simp [List.range'_succ, List.flatMap_cons, hrec, ha]
    ring

lemma dictLookup_dictSet_self (d : Params) (k : String) (v : PVal) :
    dictLookup (dictSet d k v) k = some v := by
  induction d with
  | nil => simp [dictSet, dictLookup]
  | cons p rest ih =>
    obtain ⟨k', v'⟩ := p
    by_cases h : k' = k
    · simp [dictSet, h, dictLookup]
    · simp [dictSet, h, dictLookup, ih]

lemma dictLookup_dictSet_ne (d : Params) (k K : String) (v : PVal) (h : k ≠ K) :
    dictLookup (dictSet d k v) K = dictLookup d K := by
  induction d with
  | nil => simp [dictSet, dictLookup, h]
  | cons p rest ih =>
    obtain ⟨k', v'⟩ := p
    by_cases h' : k' = k
    · subst h'
      simp [dictSet, dictLookup, h]
    · by_cases h'' : k' = K
      · simp [dictSet, h', dictLookup, h'', Ne.symm h]
      · simp [dictSet, h', dictLookup, h'', ih]

lemma mem_dictSet (d : Params) (k : String) (v : PVal) :
    ∀ p ∈ dictSet d k v, p ∈ d ∨ p = (k, v) := by
  induction d with
  | nil => intro p hp; simp [dictSet] at hp; right; exact hp
  | cons q rest ih =>
    obtain ⟨k', v'⟩ := q
    intro p hp
    by_cases h : k' = k
    · simp only [dictSet, if_pos h, List.mem_cons] at hp
      rcases hp with hp | hp
      · right; exact hp
      · left; exact List.mem_cons_of_mem _ hp
    · simp only [dictSet, if_neg h, List.mem_cons] at hp
      rcases hp with hp | hp
      · left; exact hp ▸ List.mem_cons_self _ _
      · rcases ih p hp with h1 | h1
        · left; exact List.mem_cons_of_mem _ h1
        · right; exact h1

lemma dictLookup_eq_none_of_not_mem_keys (d : Params) (k : String)
    (h : k ∉ d.map Prod.fst) : dictLookup d k = none := by
  induction d with
  | nil => rfl
  | cons q rest ih =>
    obtain ⟨k', v'⟩ := q
    simp only [List.map_cons, List.mem_cons] at h
    push_neg at h
    simp only [dictLookup, if_neg (fun hc : k' = k => h.1 hc.symm)]
    exact ih h.2

lemma dictSet_fresh (d : Params) (k : String) (v : PVal) (h : dictLookup d k = none) :
    dictSet d k v = d ++ [(k, v)] := by
  induction d with
  | nil => rfl
  | cons q rest ih =>
    obtain ⟨k', v'⟩ := q
    by_cases h' : k' = k
    · simp [dictLookup, h'] at h
    · simp only [dictLookup, if_neg h'] at h
      simp [dictSet, h', ih h]

lemma keys_mem_dictSet (d : Params) (k : String) (v : PVal) :
    ∀ a ∈ (dictSet d k v).map Prod.fst, a ∈ d.map Prod.fst ∨ a = k := by
  intro a ha
  rcases List.mem_map.mp ha with ⟨p, hp, hpa⟩
  rcases mem_dictSet d k v p hp with h1 | h1
  · left; exact hpa ▸ List.mem_map_of_mem _ h1
  · right; rw [← hpa, h1]

lemma nodupKeys_dictSet (d : Params) (k : String) (v : PVal)
    (h : (d.map Prod.fst).Nodup) : ((dictSet d k v).map Prod.fst).Nodup := by
  induction d with
  | nil => simp [dictSet]
  | cons q rest ih =>
    obtain ⟨k', v'⟩ := q
    simp only [List.map_cons, List.nodup_cons] at h
    by_cases h' : k' = k
    · simp only [dictSet, if_pos h', List.map_cons, List.nodup_cons]
      exact ⟨h' ▸ h.1, h.2⟩
    · simp only [dictSet, if_neg h', List.map_cons, List.nodup_cons]
      refine ⟨fun hc => ?_, ih h.2⟩
      rcases keys_mem_dictSet rest k v k' hc with h1 | h1
      · exact h.1 h1
      · exact h' h1

lemma append_brackets_data_getLast (s : String) :
    (s ++ "[]").data.getLast? = some ']' := by
  obtain ⟨l⟩ := s
  show (l ++ ['[', ']']).getLast? = some ']'
  rw [show l ++ ['[', ']'] = (l ++ ['[']) ++ [']'] by simp]
  exact List.getLast?_concat _

lemma ne_append_brackets {t : String} (h : t.data.getLast? ≠ some ']') (s : String) :
    s ++ "[]" ≠ t :=
  fun he => h (he ▸ append_brackets_data_getLast s)

lemma brackets_inj {s t : String} (h : s ++ "[]" = t ++ "[]") : s = t := by
  obtain ⟨ls⟩ := s
  obtain ⟨lt⟩ := t
  have hd : ls ++ ['[', ']'] = lt ++ ['[', ']'] := congrArg String.data h
  exact congrArg String.mk (List.append_cancel_right hd)

lemma arrayParamKeys_no_brackets :
    ∀ K ∈ arrayParamKeys, K.data.getLast? ≠ some ']' := by decide

lemma brackets_not_arrayParamKey (s : String) : (s ++ "[]") ∉ arrayParamKeys :=
  fun hmem => arrayParamKeys_no_brackets _ hmem (append_brackets_data_getLast s)

lemma dictLookup_formatEntry_other (acc : Params) (kv : String × PVal) (K : String)
    (h1 : kv.1 ≠ K) (h2 : kv.1 ++ "[]" ≠ K) :
    dictLookup (formatEntry acc kv) K = dictLookup acc K := by
  obtain ⟨k, v⟩ := kv
  cases v with
  | vnone => rfl
  | vlist xs =>
    simp only [formatEntry]
    by_cases hk : k ∈ arrayParamKeys
    · rw [if_pos hk]
      by_cases hxs : xs.isEmpty
      · rw [if_pos hxs]
      · rw [if_neg hxs]
        exact dictLookup_dictSet_ne _ _ _ _ h2
    · rw [if_neg hk]
      exact dictLookup_dictSet_ne _ _ _ _ h1
  | venum s => exact dictLookup_dictSet_ne _ _ _ _ h1
  | vstr s => exact dictLookup_dictSet_ne _ _ _ _ h1
  | vint n => exact dictLookup_dictSet_ne _ _ _ _ h1
  | vbool b => exact dictLookup_dictSet_ne _ _ _ _ h1

lemma dictLookup_foldl_other :
    ∀ (rest acc : Params) (K : String),
      (∀ p ∈ rest, p.1 ≠ K ∧ p.1 ++ "[]" ≠ K) →
      dictLookup (rest.foldl formatEntry acc) K = dictLookup acc K := by
  intro rest
  induction rest with
  | nil => intro acc K _; rfl
  | cons p rest ih =>
    intro acc K h
    have hp := h p (List.mem_cons_self _ _)
    rw [List.foldl_cons, ih _ _ (fun q hq => h q (List.mem_cons_of_mem _ hq)),
      dictLookup_formatEntry_other _ _ _ hp.1 hp.2]

/-- `formatEntry` on a non-`None` non-list value is dict assignment of
the enum-reduced value under the bare key. -/
lemma formatEntry_scalar (acc : Params) (k : String) (v : PVal)
    (hnl : v.isList = false) (hnn : v ≠ .vnone) :
    formatEntry acc (k, v) = dictSet acc k v.reduceItem := by
  cases v with
  | vnone => exact absurd rfl hnn
  | vlist xs => simp [PVal.isList] at hnl
  | venum s => rfl
  | vstr s => rfl
  | vint n => rfl
  | vbool b => rfl

/-- Splitting `_format_canvas_params` at one entry of the input. -/
lemma format_decomp (pre post : Params) (k : String) (v : PVal) :
    _format_canvas_params (pre ++ (k, v) :: post)
      = post.foldl formatEntry (formatEntry (pre.foldl formatEntry []) (k, v)) := by
  simp [_format_canvas_params, List.foldl_append]

/-- The freshness facts the key `k` of one input entry enjoys against
all the other entries, given unique input keys none of which ends in
`']'`. -/
lemma entry_key_fresh (pre post : Params) (k : String) (v : PVal)
    (hnd : (((pre ++ (k, v) :: post).map Prod.fst)).Nodup)
    (hnb : ∀ p ∈ pre ++ (k, v) :: post, p.1.data.getLast? ≠ some ']') :
    (∀ p ∈ pre, p.1 ≠ k ∧ p.1 ++ "[]" ≠ k) ∧
    (∀ p ∈ post, p.1 ≠ k ∧ p.1 ++ "[]" ≠ k) ∧
    (∀ p ∈ pre, p.1 ≠ k ++ "[]" ∧ p.1 ++ "[]" ≠ k ++ "[]") ∧
    (∀ p ∈ post, p.1 ≠ k ++ "[]" ∧ p.1 ++ "[]" ≠ k ++ "[]") := by
  have hkb : k.data.getLast? ≠ some ']' :=
    hnb (k, v) (List.mem_append_right _ (List.mem_cons_self _ _))
  rw [List.map_append, List.map_cons] at hnd
  rw [List.nodup_middle, List.nodup_cons] at hnd
  have hknot : k ∉ pre.map Prod.fst ∧ k ∉ post.map Prod.fst := by
    constructor <;> intro hc <;> exact hnd.1 (by simp [hc])
  have hside : ∀ p : String × PVal,
      p ∈ pre ++ (k, v) :: post → p.1 ≠ k →
      p.1 ≠ k ∧ p.1 ++ "[]" ≠ k ∧ p.1 ≠ k ++ "[]" ∧ p.1 ++ "[]" ≠ k ++ "[]" := by
    intro p hpmem hpk
    refine ⟨hpk, ne_append_brackets hkb p.1, (ne_append_brackets (hnb p hpmem) k).symm,
      fun hc => hpk (brackets_inj hc)⟩
  refine ⟨fun p hp => ?_, fun p hp => ?_, fun p hp => ?_, fun p hp => ?_⟩
  · have h := hside p (List.mem_append_left _ hp)
      (fun hc => hknot.1 (hc ▸ List.mem_map_of_mem _ hp))
    exact ⟨h.1, h.2.1⟩
  · have h := hside p (List.mem_append_right _ (List.mem_cons_of_mem _ hp))
      (fun hc => hknot.2 (hc ▸ List.mem_map_of_mem _ hp))
    exact ⟨h.1, h.2.1⟩
  · have h := hside p (List.mem_append_left _ hp)
      (fun hc => hknot.1 (hc ▸ List.mem_map_of_mem _ hp))
    exact ⟨h.2.2.1, h.2.2.2⟩
  · have h := hside p (List.mem_append_right _ (List.mem_cons_of_mem _ hp))
      (fun hc => hknot.2 (hc ▸ List.mem_map_of_mem _ hp))
    exact ⟨h.2.2.1, h.2.2.2⟩

lemma formatEntry_preserves_good (acc : Params) (q : String × PVal)
    (h : ∀ p ∈ acc, GoodEntry p) : ∀ p ∈ formatEntry acc q, GoodEntry p := by
  obtain ⟨k, v⟩ := q
  cases v with
  | vnone => exact h
  | vlist xs =>
    simp only [formatEntry]
    by_cases hk : k ∈ arrayParamKeys
    · rw [if_pos hk]
      by_cases he : xs.isEmpty
      · rw [if_pos he]; exact h
      · rw [if_neg he]
        intro p hp
        rcases mem_dictSet _ _ _ p hp with hin | heq
        · exact h p hin
        · subst heq
          exact ⟨fun hc => PVal.noConfusion hc, rfl,
            fun hmem => absurd hmem (brackets_not_arrayParamKey k)⟩
    · rw [if_neg hk]
      intro p hp
      rcases mem_dictSet _ _ _ p hp with hin | heq
      · exact h p hin
      · subst heq
        exact ⟨fun hc => PVal.noConfusion hc, rfl, fun hmem => absurd hmem hk⟩
  | venum s =>
    intro p hp
    rcases mem_dictSet acc k (.vstr s) p hp with hin | heq
    · exact h p hin
    · subst heq; exact ⟨fun hc => PVal.noConfusion hc, rfl, fun _ => rfl⟩
  | vstr s =>
    intro p hp
    rcases mem_dictSet acc k (.vstr s) p hp with hin | heq
    · exact h p hin
    · subst heq; exact ⟨fun hc => PVal.noConfusion hc, rfl, fun _ => rfl⟩
  | vint n =>
    intro p hp
    rcases mem_dictSet acc k (.vint n) p hp with hin | heq
    · exact h p hin
    · subst heq; exact ⟨fun hc => PVal.noConfusion hc, rfl, fun _ => rfl⟩
  | vbool b =>
    intro p hp
    rcases mem_dictSet acc k (.vbool b) p hp with hin | heq
    · exact h p hin
    · subst heq; exact ⟨fun hc => PVal.noConfusion hc, rfl, fun _ => rfl⟩

lemma foldl_preserves_good :
    ∀ (x acc : Params), (∀ p ∈ acc, GoodEntry p) →
      ∀ p ∈ x.foldl formatEntry acc, GoodEntry p := by
  intro x
  induction x with
  | nil => intro acc h; exact h
  | cons q x ih =>
    intro acc h
    rw [List.foldl_cons]
    exact ih _ (formatEntry_preserves_good acc q h)

lemma formatEntry_preserves_nodupKeys (acc : Params) (q : String × PVal)
    (h : (acc.map Prod.fst).Nodup) : ((formatEntry acc q).map Prod.fst).Nodup := by
  obtain ⟨k, v⟩ := q
  cases v with
  | vnone => exact h
  | vlist xs =>
    simp only [formatEntry]
    by_cases hk : k ∈ arrayParamKeys
    · rw [if_pos hk]
      by_cases he : xs.isEmpty
      · rw [if_pos he]; exact h
      · rw [if_neg he]; exact nodupKeys_dictSet _ _ _ h
    · rw [if_neg hk]; exact nodupKeys_dictSet _ _ _ h
  | venum s => exact nodupKeys_dictSet _ _ _ h
  | vstr s => exact nodupKeys_dictSet _ _ _ h
  | vint n => exact nodupKeys_dictSet _ _ _ h
  | vbool b => exact nodupKeys_dictSet _ _ _ h

lemma foldl_preserves_nodupKeys :
    ∀ (x acc : Params), (acc.map Prod.fst).Nodup →
      ((x.foldl formatEntry acc).map Prod.fst).Nodup := by
  intro x
  induction x with
  | nil => intro acc h; exact h
  | cons q x ih =>
    intro acc h
    rw [List.foldl_cons]
    exact ih _ (formatEntry_preserves_nodupKeys acc q h)

/-- On a `GoodEntry`, `formatEntry` is plain dict assignment. -/
lemma formatEntry_good (acc : Params) (k : String) (v : PVal)
    (hg : GoodEntry (k, v)) : formatEntry acc (k, v) = dictSet acc k v := by
  obtain ⟨h1, h2, h3⟩ := hg
  cases v with
  | vnone => exact absurd rfl h1
  | venum s => simp [PVal.isEnum] at h2
  | vlist xs =>
    simp only [formatEntry]
    rw [if_neg (fun hk => by simp [PVal.isList] at h3; exact h3 hk)]
  | vstr s => rfl
  | vint n => rfl
  | vbool b => rfl

lemma foldl_dictSet_rebuild :
    ∀ (y acc : Params), ((acc.map Prod.fst ++ y.map Prod.fst)).Nodup →
      y.foldl (fun a kv => dictSet a kv.1 kv.2) acc = acc ++ y := by
  intro y
  induction y with
  | nil => intro acc _; simp
  | cons q y ih =>
    intro acc h
    obtain ⟨k, v⟩ := q
    simp only [List.map_cons] at h
    have h' := h
    rw [List.nodup_middle, List.nodup_cons] at h'
    have hk_not_acc : k ∉ acc.map Prod.fst := fun hc => h'.1 (List.mem_append_left _ hc)
    rw [List.foldl_cons]
    show y.foldl (fun a kv => dictSet a kv.1 kv.2) (dictSet acc k v) = acc ++ (k, v) :: y
    rw [dictSet_fresh acc k v (dictLookup_eq_none_of_not_mem_keys _ _ hk_not_acc)]
    have hnext : ((acc ++ [(k, v)]).map Prod.fst ++ y.map Prod.fst).Nodup := by
      rw [List.map_append, List.append_assoc]
      exact h
    rw [ih (acc ++ [(k, v)]) hnext]
    simp

lemma format_good_eq_dictSet_fold :
    ∀ (y acc : Params), (∀ p ∈ y, GoodEntry p) →
      y.foldl formatEntry acc = y.foldl (fun a kv => dictSet a kv.1 kv.2) acc := by
  intro y
  induction y with
  | nil => intro acc _; rfl
  | cons q y ih =>
    intro acc h
    obtain ⟨k, v⟩ := q
    rw [List.foldl_cons, List.foldl_cons,
      formatEntry_good acc k v (h (k, v) (List.mem_cons_self _ _))]
    exact ih _ (fun p hp => h p (List.mem_cons_of_mem _ hp))

/-- C1 counterexample: run `get_paginated_data` with `per_page = 1`,
`max_pages = 2` against an upstream whose page 1 returns the full list
`[5]` and whose page 2 body is neither a sequence nor a mapping.  The
claim says the call returns the records accumulated from page 1, i.e.
`[5]`; the code returns the empty list, discarding the accumulator
(canvas_api.py line 165 returns `[]`, not `all_data`). -/
theorem C1_counterexample :
    exFetchC1 1 = Body.blist [5] ∧
    exFetchC1 2 = Body.other ∧
    get_paginated_calls exFetchC1 2 1 = [1, 2] ∧
    get_paginated_data exFetchC1 2 1 = [] ∧
    get_paginated_data exFetchC1 2 1 ≠ [5] :=
  ⟨rfl, rfl, rfl, rfl, by decide⟩

/-- C1 (amended): for every pagination run, if the single-page fetch for
some page `n` within the page bound returns a body that is neither a
sequence nor a mapping (all earlier pages returning full lists), the
call returns immediately with the EMPTY sequence — the records
accumulated from pages `1..n-1` are discarded — after fetching exactly
pages `1..n`. -/
theorem C1_amended_discards {α : Type} (fetch : Nat → Body α) (p m n : Nat)
    (h1 : 1 ≤ n) (h2 : n ≤ m)
    (hprev : ∀ k, k < n → 1 ≤ k → ∃ lk, fetch k = Body.blist lk ∧ p ≤ lk.length)
    (hn : fetch n = Body.other) :
    get_paginated_data fetch m p = [] ∧
    get_paginated_calls fetch m p = List.range' 1 n := by
  have key := paginateLoop_other fetch p m 1 n [] h1 (by omega)
    (fun k hk1 hk2 => hprev k hk2 hk1) hn
  have harith : n + 1 - 1 = n := by omega
  rw [harith] at key
  exact ⟨by simp [get_paginated_data, key], by simp [get_paginated_calls, key]⟩

/-- Witness for C1 (amended) at the concrete upstream `exFetchC1`. -/
theorem C1_amended_discards_witness :
    get_paginated_data exFetchC1 2 1 = [] ∧
    get_paginated_calls exFetchC1 2 1 = List.range' 1 2 :=
  C1_amended_discards exFetchC1 1 2 2 (by omega) (by omega)
    (by
      intro k hk1 hk2
      have hk : k = 1 := by omega
      subst hk
      exact ⟨[5], rfl, by decide⟩)
    rfl

/-- C2: against an upstream all of whose pages are lists, pages are
fetched in order 1, 2, 3, …; after the first page returning strictly
fewer than `per_page` records no further page is requested and the
result is the concatenation of all pages received; and if every page up
to `max_pages` returns exactly `per_page` records, exactly `max_pages`
calls are made and `max_pages * per_page` records are returned. -/
theorem C2_pagination {α : Type} (l : Nat → List α) (p m n : Nat) :
    (1 ≤ n → n ≤ m → (∀ k, k < n → 1 ≤ k → p ≤ (l k).length) → (l n).length < p →
      get_paginated_data (fun k => Body.blist (l k)) m p = (List.range' 1 n).flatMap l ∧
      get_paginated_calls (fun k => Body.blist (l k)) m p = List.range' 1 n) ∧
    ((∀ k, k ≤ m → 1 ≤ k → (l k).length = p) →
      get_paginated_data (fun k => Body.blist (l k)) m p = (List.range' 1 m).flatMap l ∧
      get_paginated_calls (fun k => Body.blist (l k)) m p = List.range' 1 m ∧
      ((List.range' 1 m).flatMap l).length = m * p) := by
  constructor
  · intro h1 h2 hfull hshort
    have key := paginateLoop_short l p m 1 n [] h1 (by omega)
      (fun k hk1 hk2 => hfull k hk2 hk1) hshort
    have harith : n + 1 - 1 = n := by omega
    rw [harith] at key
    exact ⟨by simp [get_paginated_data, key], by simp [get_paginated_calls, key]⟩
  · intro hfull
    have key := paginateLoop_full l p m 1 []
      (fun k hk1 hk2 => le_of_eq (hfull k (by omega) hk1).symm)
    refine ⟨by simp [get_paginated_data, key], by simp [get_paginated_calls, key], ?_⟩
    exact flatMap_length_const l p m 1 (fun k hk1 hk2 => hfull k (by omega) hk1)

/-- Witness for C2: page sizes [100, 100, 37] with per_page 100 and
max_pages 10 give the 237-record concatenation of pages 1..3 in exactly
3 calls; an always-full upstream with max_pages 5 gives exactly 5 calls
and 500 records. -/
theorem C2_pagination_witness :
    (get_paginated_data (fun k => Body.blist (wl1 k)) 10 100 = (List.range' 1 3).flatMap wl1 ∧
     get_paginated_calls (fun k => Body.blist (wl1 k)) 10 100 = List.range' 1 3) ∧
    (get_paginated_data (fun k => Body.blist (wl2 k)) 5 100 = (List.range' 1 5).flatMap wl2 ∧
     get_paginated_calls (fun k => Body.blist (wl2 k)) 5 100 = List.range' 1 5 ∧
     ((List.range' 1 5).flatMap wl2).length = 5 * 100) :=
  ⟨(C2_pagination wl1 100 10 3).1 (by omega) (by omega)
      (by
        intro k hk1 hk2
        have hk : k = 1 ∨ k = 2 := by omega
        rcases hk with hk | hk <;> subst hk <;> decide)
      (by decide),
   (C2_pagination wl2 100 5 1).2 (by intro k hk1 hk2; simp [wl2])⟩

/-- C3: if the single-page fetch for page `n` (within the page bound,
all earlier pages returning full lists) returns a mapping `d`, the call
returns exactly the one-element sequence `[d]` — abandoning any
previously accumulated records — after fetching exactly pages `1..n`;
in particular with `n = 1` exactly one fetch is performed. -/
theorem C3_single_object {α : Type} (fetch : Nat → Body α) (p m n : Nat) (d : α)
    (h1 : 1 ≤ n) (h2 : n ≤ m)
    (hprev : ∀ k, k < n → 1 ≤ k → ∃ lk, fetch k = Body.blist lk ∧ p ≤ lk.length)
    (hn : fetch n = Body.bdict d) :
    get_paginated_data fetch m p = [d] ∧
    get_paginated_calls fetch m p = List.range' 1 n := by
  have key := paginateLoop_bdict fetch p d m 1 n [] h1 (by omega)
    (fun k hk1 hk2 => hprev k hk2 hk1) hn
  have harith : n + 1 - 1 = n := by omega
  rw [harith] at key
  exact ⟨by simp [get_paginated_data, key], by simp [get_paginated_calls, key]⟩

/-- Witness for C3: a first-page mapping response yields `[42]` after
exactly one call, with `max_pages = 10` and `per_page = 100`. -/
theorem C3_single_object_witness :
    get_paginated_data exFetchC3 10 100 = [42] ∧
    get_paginated_calls exFetchC3 10 100 = List.range' 1 1 :=
  C3_single_object exFetchC3 100 10 1 42 (by omega) (by omega)
    (by intro k hk1 hk2; omega) rfl

/-- C4: the repository's Domain API Client exposes no GraphQL call
operation at all — neither `post_graphql` nor the `post_graphql_query`
name its only caller (`get_course_by_id`, get_courses_by_id.py line 29)
uses resolves against the attribute namespace of `CanvasAPIClient`, so
that call raises `AttributeError` instead of POSTing a GraphQL body. -/
theorem C4_graphql_method_missing :
    "post_graphql_query" ∉ CanvasAPIClientMethods ∧
    "post_graphql" ∉ CanvasAPIClientMethods := by decide

/-- C6 counterexample: a completed exchange with status 404 and text
body `"oops"`.  The claim says the raised message equals
`"HTTP 404 error"` appended with up to 200 characters of the text body,
i.e. `"HTTP 404 error: oops"`; the code (http_client.py line 161) also
appends a trailing `"..."`, producing `"HTTP 404 error: oops..."`. -/
theorem C6_counterexample :
    _make_request "https://canvas.example/api/v1/courses"
        ⟨404, JVal.jstr "oops", [], "https://canvas.example/api/v1/courses"⟩
      = Except.error ⟨"HTTP 404 error: oops...", some 404, some (JVal.jstr "oops"),
          some "https://canvas.example/api/v1/courses"⟩ ∧
    "HTTP 404 error: oops..." ≠ "HTTP 404 error: oops" :=
  ⟨by set_option maxRecDepth 4096 in rfl, by decide⟩

/-- C6 (amended): for every completed exchange whose status is not in
[200, 300), the request engine raises an error whose message equals
`"HTTP {status} error"`, appended with `": {body['message']}"` exactly
when the parsed body is a mapping containing a "message" key, else
appended with `": "`, up to 200 characters of the raw text body AND a
trailing `"..."` when the body is text, else nothing; the error carries
the status code, the full parsed body, and the request URL. -/
theorem C6_amended (url : String) (ex : RawExchange)
    (hfail : ¬ (200 ≤ ex.status_code ∧ ex.status_code < 300)) :
    ∃ e : HTTPErrorT,
      _make_request url ex = Except.error e ∧
      e.status_code = some ex.status_code ∧
      e.response_data = some ex.response_data ∧
      e.url = some url ∧
      (∀ fields, ex.response_data = JVal.jobj fields →
        (∀ v, jobjLookup fields "message" = some v →
          e.message = "HTTP " ++ toString ex.status_code ++ " error" ++ ": " ++ v.pyStr) ∧
        (jobjLookup fields "message" = none →
          e.message = "HTTP " ++ toString ex.status_code ++ " error")) ∧
      (∀ s, ex.response_data = JVal.jstr s →
        e.message = "HTTP " ++ toString ex.status_code ++ " error" ++ ": "
          ++ s.take 200 ++ "...") ∧
      ((∀ fields, ex.response_data ≠ JVal.jobj fields) →
        (∀ s, ex.response_data ≠ JVal.jstr s) →
        e.message = "HTTP " ++ toString ex.status_code ++ " error") := by
  obtain ⟨sc, rd, hd, fu⟩ := ex
  have hb : (⟨sc, rd, hd, fu⟩ : HTTPResponseT).is_success = false := decide_eq_false hfail
  simp only [_make_request, hb, Bool.false_eq_true, if_false]
  refine ⟨_, rfl, rfl, rfl, rfl, ?_, ?_, ?_⟩
  · intro fields hrd
    subst hrd
    constructor
    · intro v hv
      simp only [hv]
    · intro hv
      simp only [hv]
  · intro s hrd
    subst hrd
    simp [String.append_assoc]
  · intro hobj hstr
    cases rd with
    | jobj fields => exact absurd rfl (hobj fields)
    | jstr s => exact absurd rfl (hstr s)
    | jnull => rfl
    | jbool b => rfl
    | jnum n => rfl
    | jarr xs => rfl

/-- Witness for C6 (amended): status 500 with a mapping body holding a
"message" key. -/
theorem C6_amended_witness :
    ∃ e : HTTPErrorT,
      _make_request "u" ⟨500, JVal.jobj [("message", JVal.jstr "boom")], [], "u"⟩
        = Except.error e ∧
      e.status_code = some 500 ∧
      e.response_data = some (JVal.jobj [("message", JVal.jstr "boom")]) ∧
      e.url = some "u" ∧
      (∀ fields, JVal.jobj [("message", JVal.jstr "boom")] = JVal.jobj fields →
        (∀ v, jobjLookup fields "message" = some v →
          e.message = "HTTP " ++ toString 500 ++ " error" ++ ": " ++ v.pyStr) ∧
        (jobjLookup fields "message" = none →
          e.message = "HTTP " ++ toString 500 ++ " error")) ∧
      (∀ s, JVal.jobj [("message", JVal.jstr "boom")] = JVal.jstr s →
        e.message = "HTTP " ++ toString 500 ++ " error" ++ ": " ++ s.take 200 ++ "...") ∧
      ((∀ fields, JVal.jobj [("message", JVal.jstr "boom")] ≠ JVal.jobj fields) →
        (∀ s, JVal.jobj [("message", JVal.jstr "boom")] ≠ JVal.jstr s) →
        e.message = "HTTP " ++ toString 500 ++ " error") :=
  C6_amended "u" ⟨500, JVal.jobj [("message", JVal.jstr "boom")], [], "u"⟩ (by decide)

/-- C7: an `HTTPError` raised by the underlying GET with status
401/403/404 is rewrapped by `get_canvas_data` into a new `HTTPError`
with a contextual message (mentioning "authentication", "forbidden",
"endpoint not found" respectively) while preserving the original status
code, response body and URL; every other error — any other status, and
every transport failure (no status code) — propagates unchanged. -/
theorem C7_error_rewrap (token endpoint : String) (e : HTTPErrorT) (htok : token ≠ "") :
    (e.status_code = some 401 →
      get_canvas_data token endpoint (.error e)
        = .error (.httpError ⟨canvasAuthFailedMsg, e.status_code, e.response_data, e.url⟩) ∧
      ∃ a b, canvasAuthFailedMsg = a ++ "authentication" ++ b) ∧
    (e.status_code = some 403 →
      get_canvas_data token endpoint (.error e)
        = .error (.httpError ⟨canvasForbiddenMsg, e.status_code, e.response_data, e.url⟩) ∧
      ∃ a b, canvasForbiddenMsg = a ++ "forbidden" ++ b) ∧
    (e.status_code = some 404 →
      get_canvas_data token endpoint (.error e)
        = .error (.httpError
            ⟨canvasNotFoundMsg endpoint, e.status_code, e.response_data, e.url⟩) ∧
      ∃ a b, canvasNotFoundMsg endpoint = a ++ "endpoint not found" ++ b) ∧
    (e.status_code ≠ some 401 → e.status_code ≠ some 403 → e.status_code ≠ some 404 →
      get_canvas_data token endpoint (.error e) = .error (.httpError e)) := by
  refine ⟨fun h => ⟨?_, "Canvas API ",
      " failed. Please check your CANVAS_API_TOKEN.", rfl⟩,
    fun h => ⟨?_, "Canvas API access ",
      ". Check your permissions for this resource.", rfl⟩,
    fun h => ⟨?_, "Canvas API ", ": " ++ endpoint, ?_⟩,
    fun h1 h2 h3 => ?_⟩
  · simp [get_canvas_data, htok, h]
  · simp [get_canvas_data, htok, h]
  · simp [get_canvas_data, htok, h]
  · rw [← String.append_assoc]
    rfl
  · simp [get_canvas_data, htok, h1, h2, h3]

/-- Witness for C7 at concrete 401/403/404 errors and a concrete
transport failure. -/
theorem C7_error_rewrap_witness :
    (get_canvas_data "tok" "courses" (.error e401)
      = .error (.httpError ⟨canvasAuthFailedMsg, e401.status_code,
          e401.response_data, e401.url⟩) ∧
     ∃ a b, canvasAuthFailedMsg = a ++ "authentication" ++ b) ∧
    (get_canvas_data "tok" "courses" (.error e403)
      = .error (.httpError ⟨canvasForbiddenMsg, e403.status_code,
          e403.response_data, e403.url⟩) ∧
     ∃ a b, canvasForbiddenMsg = a ++ "forbidden" ++ b) ∧
    (get_canvas_data "tok" "courses" (.error e404)
      = .error (.httpError ⟨canvasNotFoundMsg "courses", e404.status_code,
          e404.response_data, e404.url⟩) ∧
     ∃ a b, canvasNotFoundMsg "courses" = a ++ "endpoint not found" ++ b) ∧
    get_canvas_data "tok" "courses" (.error eTimeout) = .error (.httpError eTimeout) :=
  ⟨(C7_error_rewrap "tok" "courses" e401 (by decide)).1 rfl,
   (C7_error_rewrap "tok" "courses" e403 (by decide)).2.1 rfl,
   (C7_error_rewrap "tok" "courses" e404 (by decide)).2.2.1 rfl,
   (C7_error_rewrap "tok" "courses" eTimeout (by decide)).2.2.2
     (by decide) (by decide) (by decide)⟩

/-- C8: with an empty configured auth token, `get_canvas_data` fails
with the configuration `ValueError` regardless of what the network
would have returned (so no request is ever issued), and that failure is
a different constructor than every `HTTPError` failure — a caller can
tell "never sent" apart from "sent and rejected". -/
theorem C8_empty_token_config_error (endpoint : String)
    (getResult : Except HTTPErrorT HTTPResponseT) :
    get_canvas_data "" endpoint getResult = .error (.configError configValidateMsg) ∧
    (∀ e : HTTPErrorT,
      CanvasFailure.configError configValidateMsg ≠ CanvasFailure.httpError e) := by
  constructor
  · simp [get_canvas_data]
  · intro e h
    exact CanvasFailure.noConfusion h

/-- C5: for every input dict (unique keys, none ending in `']'` — the
plain parameter names the tool layer produces): an entry whose value is
`None` leaves its key absent from the output; an array-parameter key
holding a non-empty list comes out under the key suffixed `"[]"` mapped
to the element-wise enum-reduced list, with the bare key absent; and an
array-parameter key holding an empty list leaves both the bare and the
suffixed key absent. -/
theorem C5_array_param_formatting (x : Params)
    (hnd : (x.map Prod.fst).Nodup)
    (hnb : ∀ p ∈ x, p.1.data.getLast? ≠ some ']') :
    (∀ k, (k, PVal.vnone) ∈ x → dictLookup (_format_canvas_params x) k = none) ∧
    (∀ k xs, k ∈ arrayParamKeys → (k, PVal.vlist xs) ∈ x → xs ≠ [] →
      dictLookup (_format_canvas_params x) (k ++ "[]")
        = some (.vlist (xs.map PVal.reduceItem)) ∧
      dictLookup (_format_canvas_params x) k = none) ∧
    (∀ k, k ∈ arrayParamKeys → (k, PVal.vlist []) ∈ x →
      dictLookup (_format_canvas_params x) k = none ∧
      dictLookup (_format_canvas_params x) (k ++ "[]") = none) := by
  refine ⟨?_, ?_, ?_⟩
  · intro k hmem
    obtain ⟨pre, post, hx⟩ := List.append_of_mem hmem
    subst hx
    obtain ⟨hpre_k, hpost_k, _, _⟩ := entry_key_fresh pre post k .vnone hnd hnb
    rw [format_decomp, dictLookup_foldl_other post _ k hpost_k]
    show dictLookup (pre.foldl formatEntry []) k = none
    rw [dictLookup_foldl_other pre _ k hpre_k]
    rfl
  · intro k xs hk hmem hxs
    obtain ⟨pre, post, hx⟩ := List.append_of_mem hmem
    subst hx
    obtain ⟨hpre_k, hpost_k, hpre_b, hpost_b⟩ :=
      entry_key_fresh pre post k (.vlist xs) hnd hnb
    have hne : xs.isEmpty = false := by
      cases xs with
      | nil => exact absurd rfl hxs
      | cons a l => rfl
    have hkb : k.data.getLast? ≠ some ']' :=
      hnb (k, .vlist xs) (List.mem_append_right _ (List.mem_cons_self _ _))
    have hentry : formatEntry (pre.foldl formatEntry []) (k, PVal.vlist xs)
        = dictSet (pre.foldl formatEntry []) (k ++ "[]")
            (.vlist (xs.map PVal.reduceItem)) := by
      simp only [formatEntry, if_pos hk, hne]
      rfl
    constructor
    · rw [format_decomp, dictLookup_foldl_other post _ (k ++ "[]") hpost_b, hentry,
        dictLookup_dictSet_self]
    · rw [format_decomp, dictLookup_foldl_other post _ k hpost_k, hentry,
        dictLookup_dictSet_ne _ _ _ _ (ne_append_brackets hkb k),
        dictLookup_foldl_other pre _ k hpre_k]
      rfl
  · intro k hk hmem
    obtain ⟨pre, post, hx⟩ := List.append_of_mem hmem
    subst hx
    obtain ⟨hpre_k, hpost_k, hpre_b, hpost_b⟩ :=
      entry_key_fresh pre post k (.vlist []) hnd hnb
    have hentry : formatEntry (pre.foldl formatEntry []) (k, PVal.vlist [])
        = pre.foldl formatEntry [] := by
      simp only [formatEntry, if_pos hk]
      rfl
    constructor
    · rw [format_decomp, dictLookup_foldl_other post _ k hpost_k, hentry,
        dictLookup_foldl_other pre _ k hpre_k]
      rfl
    · rw [format_decomp, dictLookup_foldl_other post _ (k ++ "[]") hpost_b, hentry,
        dictLookup_foldl_other pre _ (k ++ "[]") hpre_b]
      rfl

/-- Witness for C5 at a concrete query-parameter dict: a non-empty
`include` list (with an enum element), an empty `state` list, a plain
scalar, and a `None` entry. -/
theorem C5_array_param_formatting_witness :
    dictLookup (_format_canvas_params
        [("include", PVal.vlist [.venum "syllabus_body", .vstr "term"]),
         ("state", PVal.vlist []), ("per_page", PVal.vint 100), ("foo", PVal.vnone)])
      "foo" = none ∧
    (dictLookup (_format_canvas_params
        [("include", PVal.vlist [.venum "syllabus_body", .vstr "term"]),
         ("state", PVal.vlist []), ("per_page", PVal.vint 100), ("foo", PVal.vnone)])
      "include[]" = some (.vlist [.vstr "syllabus_body", .vstr "term"]) ∧
     dictLookup (_format_canvas_params
        [("include", PVal.vlist [.venum "syllabus_body", .vstr "term"]),
         ("state", PVal.vlist []), ("per_page", PVal.vint 100), ("foo", PVal.vnone)])
      "include" = none) ∧
    (dictLookup (_format_canvas_params
        [("include", PVal.vlist [.venum "syllabus_body", .vstr "term"]),
         ("state", PVal.vlist []), ("per_page", PVal.vint 100), ("foo", PVal.vnone)])
      "state" = none ∧
     dictLookup (_format_canvas_params
        [("include", PVal.vlist [.venum "syllabus_body", .vstr "term"]),
         ("state", PVal.vlist []), ("per_page", PVal.vint 100), ("foo", PVal.vnone)])
      "state[]" = none) := by
  have h := C5_array_param_formatting
    [("include", PVal.vlist [.venum "syllabus_body", .vstr "term"]),
     ("state", PVal.vlist []), ("per_page", PVal.vint 100), ("foo", PVal.vnone)]
    (by decide) (by decide)
  refine ⟨h.1 "foo" ?_, ?_, h.2.2 "state" (by decide) ?_⟩
  · simp
  · have hinc := h.2.1 "include" [.venum "syllabus_body", .vstr "term"]
      (by decide) (by simp) (by simp)
    exact hinc
  · simp

/-- C10: an entry under an array-parameter key whose value is NOT a
list (for example the single enum-like `state` value the courses query
model supplies) is emitted under the bare key — enum-reduced — with no
`"[]"`-suffixed key appearing for it. -/
theorem C10_scalar_under_array_key (x : Params) (k : String) (v : PVal)
    (hnd : (x.map Prod.fst).Nodup)
    (hnb : ∀ p ∈ x, p.1.data.getLast? ≠ some ']')
    (hk : k ∈ arrayParamKeys) (hmem : (k, v) ∈ x)
    (hnl : v.isList = false) (hnn : v ≠ .vnone) :
    dictLookup (_format_canvas_params x) k = some v.reduceItem ∧
    dictLookup (_format_canvas_params x) (k ++ "[]") = none := by
  obtain ⟨pre, post, hx⟩ := List.append_of_mem hmem
  subst hx
  obtain ⟨hpre_k, hpost_k, hpre_b, hpost_b⟩ := entry_key_fresh pre post k v hnd hnb
  have hkb : k.data.getLast? ≠ some ']' :=
    hnb (k, v) (List.mem_append_right _ (List.mem_cons_self _ _))
  constructor
  · rw [format_decomp, dictLookup_foldl_other post _ k hpost_k,
      formatEntry_scalar _ _ _ hnl hnn, dictLookup_dictSet_self]
  · rw [format_decomp, dictLookup_foldl_other post _ (k ++ "[]") hpost_b,
      formatEntry_scalar _ _ _ hnl hnn,
      dictLookup_dictSet_ne _ _ _ _ (fun hc => (ne_append_brackets hkb k) hc.symm),
      dictLookup_foldl_other pre _ (k ++ "[]") hpre_b]
    rfl

/-- Witness for C10 at the courses query dict: `state` holds the single
enum-like value `available` (not a list), as `get_courses` supplies it. -/
theorem C10_scalar_under_array_key_witness :
    dictLookup (_format_canvas_params
        [("enrollment_type", PVal.venum "student"), ("state", PVal.venum "available")])
      "state" = some (PVal.venum "available").reduceItem ∧
    dictLookup (_format_canvas_params
        [("enrollment_type", PVal.venum "student"), ("state", PVal.venum "available")])
      "state[]" = none :=
  C10_scalar_under_array_key
    [("enrollment_type", PVal.venum "student"), ("state", PVal.venum "available")]
    "state" (PVal.venum "available")
    (by decide) (by decide) (by decide) (by simp) rfl
    (fun hc => PVal.noConfusion hc)

/-- C9: parameter formatting is idempotent on inputs whose values carry
no enum-like wrapper (already primitive, including inside list
values): formatting the formatted dict returns it unchanged. -/
theorem C9_format_idempotent (x : Params)
    (hx : ∀ p ∈ x, p.2.enumFree = true) :
    _format_canvas_params (_format_canvas_params x) = _format_canvas_params x := by
  have hgood : ∀ p ∈ _format_canvas_params x, GoodEntry p :=
    foldl_preserves_good x [] (fun p hp => absurd hp (List.not_mem_nil p))
  have hnd : ((_format_canvas_params x).map Prod.fst).Nodup :=
    foldl_preserves_nodupKeys x [] List.nodup_nil
  show (_format_canvas_params x).foldl formatEntry [] = _format_canvas_params x
  rw [format_good_eq_dictSet_fold _ [] hgood,
    foldl_dictSet_rebuild _ [] hnd]
  simp

/-- Witness for C9 at a concrete enum-free query dict (a list value, a
scalar, and a `None`). -/
theorem C9_format_idempotent_witness :
    _format_canvas_params (_format_canvas_params
        [("include", PVal.vlist [.vstr "syllabus_body"]), ("per_page", PVal.vint 50),
         ("foo", PVal.vnone)])
      = _format_canvas_params
        [("include", PVal.vlist [.vstr "syllabus_body"]), ("per_page", PVal.vint 50),
         ("foo", PVal.vnone)] :=
  C9_format_idempotent
    [("include", PVal.vlist [.vstr "syllabus_body"]), ("per_page", PVal.vint 50),
     ("foo", PVal.vnone)]
    (by decide)
